import Mathlib

/-!
Verification development for a columnar expression-evaluation engine
(cudf AST `compute_column`), the reduction benchmark's output-type
selection, and the `lists_column_view` offsets accessors.

Sources embedded:
* `cpp/benchmarks/reduction/reduce_benchmark.cpp` — output dtype selection.
* `cpp/include/cudf/lists/lists_column_view.hpp` — offsets iterator range.
* the expression-evaluation core (`compute_column`): its implementation is
  not among the provided sources (only the benchmark caller is), so the
  engine is modelled from the specification document, as marked on each
  definition.
-/

/-- Element type tags for columns, mirroring `cudf::type_id` restricted to
the kinds exercised by the sources (bool, fixed-width integers, floating
point, a fixed-width timestamp) plus the two kinds the expression core
must reject (strings and nested lists). -/
inductive DType where
  | BOOL8
  | INT8
  | INT32
  | INT64
  | FLOAT32
  | FLOAT64
  | TIMESTAMP_MS
  | STRING
  | LIST
deriving DecidableEq, Repr

/-- Aggregation kinds appearing in `reduce_benchmark.cpp`
(`cudf::experimental::aggregation::Kind` members used there). -/
inductive AggregationKind where
  | SUM
  | PRODUCT
  | MIN
  | MEAN
  | VARIANCE
  | STD
deriving DecidableEq, Repr

/-- Output dtype selection from `BM_reduction`
(`reduce_benchmark.cpp` lines 54-58): MEAN, VARIANCE and STD resolve to
FLOAT64; every other kind keeps the input column's type. -/
def output_dtype (kind : AggregationKind) (input : DType) : DType :=
  if kind = AggregationKind.MEAN ∨ kind = AggregationKind.VARIANCE ∨
     kind = AggregationKind.STD
  then DType.FLOAT64
  else input

/-! ## lists_column_view (from `cudf/lists/lists_column_view.hpp`) -/

/-- A (possibly sliced) column view: the view's row count `size`, the
slice `offset` from the start of the underlying buffer, the underlying
(unsliced) scalar data, and the child column views.  Children are always
the children of the root (unsliced) column; slice offsets are stored only
at the root, per the header's documentation. -/
inductive column_view where
  | mk (size : Nat) (offset : Nat) (data : List Int) (children : List column_view)

namespace column_view

def size : column_view → Nat
  | .mk s _ _ _ => s

def offset : column_view → Nat
  | .mk _ o _ _ => o

def data : column_view → List Int
  | .mk _ _ d _ => d

def children : column_view → List column_view
  | .mk _ _ _ c => c

/-- `column_view::child(i)`. -/
def child (c : column_view) (i : Nat) : column_view :=
  c.children.getD i (column_view.mk 0 0 [] [])

/-- `column_view::is_empty()`: true when the view has zero rows. -/
def is_empty (c : column_view) : Bool := c.size = 0

end column_view

/-- The error raised by `CUDF_EXPECTS` (`cudf::logic_error`). -/
inductive CudfError where
  | logic_error
deriving DecidableEq, Repr

namespace lists_column_view

/-- `lists_column_view::offsets_column_index` (header line 48). -/
def offsets_column_index : Nat := 0

/-- `lists_column_view::child_column_index` (header line 49). -/
def child_column_index : Nat := 1

/-- Modelled from the spec: `lists_column_view::offsets()` is declared in
the header with "@throw cudf::logic error if this is an empty column" and
documented to return the internal column of offsets; its body is not among
the sources.  It fails on an empty column and otherwise returns the child
at `offsets_column_index`. -/
def offsets (c : column_view) : Except CudfError column_view :=
  if c.size = 0 then Except.error CudfError.logic_error
  else Except.ok (c.child offsets_column_index)

/-- Modelled from the spec: `lists_column_view::child()` is declared in the
header with "@throw cudf::logic error if this is an empty column" and
documented to return the internal child column; its body is not among the
sources.  It fails on an empty column and otherwise returns the child at
`child_column_index`. -/
def child (c : column_view) : Except CudfError column_view :=
  if c.size = 0 then Except.error CudfError.logic_error
  else Except.ok (c.child child_column_index)

/-- `lists_column_view::offsets_begin()` (header lines 99-102):
`offsets().begin<offset_type>() + offset()`.  Pointers are modelled as
indices into the offsets child's underlying data, so the begin iterator is
the index `offset()` from the start of the offsets child column. -/
def offsets_begin (c : column_view) : Nat := c.offset

/-- `lists_column_view::offsets_end()` (header lines 114-117):
`offsets_begin() + size() + 1`. -/
def offsets_end (c : column_view) : Nat := offsets_begin c + c.size + 1

/-- The boundary offsets spanned by `[offsets_begin, offsets_end)`, read
out of the offsets child column's data. -/
def offsetsRange (c : column_view) : List Int :=
  ((c.child offsets_column_index).data.drop (offsets_begin c)).take
    (offsets_end c - offsets_begin c)

/-- Modelled from the spec: `lists_column_view::get_sliced_child()` is
declared in the header with "@throw cudf::logic error if this is an empty
column" and documented to return the internal child column with the root's
slice offset applied (the element range designated by the view's own
boundary offsets); its body is not among the sources. -/
def get_sliced_child (c : column_view) : Except CudfError column_view :=
  if c.size = 0 then Except.error CudfError.logic_error
  else
    let ofs := (c.child offsets_column_index).data
    let start := (ofs.getD c.offset 0).toNat
    let stop := (ofs.getD (c.offset + c.size) 0).toNat
    let elems := c.child child_column_index
    Except.ok (column_view.mk (stop - start) 0
      ((elems.data.drop start).take (stop - start)) elems.children)

end lists_column_view

/-! ## Expression-evaluation core, modelled from the specification

The `compute_column` engine (cudf AST) is exercised by
`cpp/benchmarks/ast/transform.cpp` but its implementation is not among the
provided sources, so the following definitions are modelled from the
specification document (data model, resolver, evaluator, error policy). -/

/-- A column: element type, one scalar per row, and a validity flag per
row (an absent mask is modelled as an all-true list). -/
structure Column where
  dtype : DType
  values : List Int
  valid : List Bool
deriving DecidableEq, Repr

def defaultColumn : Column := ⟨DType.INT32, [], []⟩

/-- Whether the column contains any null row (`has_nulls`). -/
def hasNulls (c : Column) : Bool := c.valid.any (fun b => !b)

/-- A table: ordered columns sharing one row count. -/
structure Table where
  numRows : Nat
  cols : List Column
deriving DecidableEq, Repr

/-- Well-formedness: every column holds exactly `numRows` values and
validity bits. -/
def wfTable (tbl : Table) : Prop :=
  ∀ c ∈ tbl.cols, c.values.length = tbl.numRows ∧ c.valid.length = tbl.numRows

def colValue (tbl : Table) (j row : Nat) : Int :=
  (tbl.cols.getD j defaultColumn).values.getD row 0

def colValid (tbl : Table) (j row : Nat) : Bool :=
  (tbl.cols.getD j defaultColumn).valid.getD row true

/-- Modelled from the spec: the operator set of the expression core, an
enumerated set with declared arity 2 (`ast_operator::ADD` is the operator
exercised by the benchmark); `NULL_EQUAL` stands for the spec's
explicitly-declared null-safe operators. -/
inductive ASTOperator where
  | ADD
  | SUB
  | MUL
  | NULL_EQUAL
deriving DecidableEq, Repr

/-- Modelled from the spec: operators explicitly declared null-safe define
their own nullability rule instead of the default AND of operand
validities. -/
def opNullSafe : ASTOperator → Bool
  | ASTOperator.NULL_EQUAL => true
  | _ => false

/-- Modelled from the spec: each operator's scalar function over operand
values and (for the null-safe operator) operand validities; evaluated
eagerly, with no short-circuit. -/
def opApply : ASTOperator → Int × Bool → Int × Bool → Int
  | ASTOperator.ADD, a, b => a.1 + b.1
  | ASTOperator.SUB, a, b => a.1 - b.1
  | ASTOperator.MUL, a, b => a.1 * b.1
  | ASTOperator.NULL_EQUAL, a, b =>
    if (!a.2 && !b.2) || (a.2 && b.2 && a.1 == b.1) then 1 else 0

/-- Numeric promotion rank: used to pick the wider operand type.  Types
outside the numeric lattice (timestamps, strings, lists) have no rank. -/
def rank : DType → Option Nat
  | DType.BOOL8 => some 0
  | DType.INT8 => some 1
  | DType.INT32 => some 2
  | DType.INT64 => some 3
  | DType.FLOAT32 => some 4
  | DType.FLOAT64 => some 5
  | _ => none

/-- Modelled from the spec: the operator's total, deterministic
type-promotion function — arithmetic operators yield the wider operand
type (mixed integer/floating promotes to floating, via the rank order);
the null-safe comparison always yields a boolean type; combinations with
no rule (e.g. arithmetic on timestamps) have no promotion. -/
def promote (op : ASTOperator) (t1 t2 : DType) : Option DType :=
  match rank t1, rank t2 with
  | some r1, some r2 =>
    match op with
    | ASTOperator.NULL_EQUAL => some DType.BOOL8
    | _ => some (if r2 ≤ r1 then t1 else t2)
  | _, _ => none

/-- Types this core supports (strings and nested lists are rejected). -/
def supported : DType → Bool
  | DType.STRING => false
  | DType.LIST => false
  | _ => true

/-- Modelled from the spec: an expression node.  Nodes live in an
append-only node store (a list); a node reference is its index in the
store, and an operation's operands are references to nodes that were
created earlier (strictly smaller indices — the only references an
append-only construction can produce). -/
inductive Node where
  | columnReference (idx : Nat)
  | literal (v : Int) (t : DType) (isNull : Bool)
  | operation (op : ASTOperator) (l r : Nat)
deriving DecidableEq, Repr

/-- Error kinds of the engine, from the spec's error-handling design.
`AllocationFailure` is declared for completeness; the model's output
materialization always succeeds. -/
inductive EvalError where
  | OutOfRange
  | InvalidExpression
  | TypeMismatch
  | UnsupportedType
  | AllocationFailure
deriving DecidableEq, Repr

/-- The tree unfolding of a node graph: what a stored node denotes once
its operand references are followed.  `invalid` marks a dangling or
non-forward (cyclic) reference. -/
inductive Expr where
  | colRef (j : Nat)
  | lit (v : Int) (t : DType) (isNull : Bool)
  | opn (op : ASTOperator) (l r : Expr)
  | invalid
deriving DecidableEq, Repr

/-- Unfold the node at index `i` of the store into its denoted expression
tree.  An operation whose operand references are not strictly smaller than
its own index cannot arise from append-only construction and denotes
`invalid` (the spec's cycle rejection). -/
def denote (store : List Node) : Nat → Expr
  | i =>
    match store.get? i with
    | some (Node.columnReference j) => Expr.colRef j
    | some (Node.literal v t n) => Expr.lit v t n
    | some (Node.operation op l r) =>
      if h : l < i ∧ r < i then Expr.opn op (denote store l) (denote store r)
      else Expr.invalid
    | none => Expr.invalid
termination_by i => i
decreasing_by
  · exact h.1
  · exact h.2

/-- Modelled from the spec: bottom-up type-and-nullability resolution.
A column reference copies type and nullability from the referenced column
(out-of-range index fails with `OutOfRange`, unsupported element type with
`UnsupportedType`); a literal uses its declared type and null flag; an
operation applies the operator's promotion (failing with `TypeMismatch`
when no rule exists) and ORs operand nullability unless the operator is
null-safe (the null-safe operator is never null). -/
def resolveE (tbl : Table) : Expr → Except EvalError (DType × Bool)
  | Expr.colRef j =>
    match tbl.cols.get? j with
    | some c =>
      if supported c.dtype then Except.ok (c.dtype, hasNulls c)
      else Except.error EvalError.UnsupportedType
    | none => Except.error EvalError.OutOfRange
  | Expr.lit _ t n =>
    if supported t then Except.ok (t, n) else Except.error EvalError.UnsupportedType
  | Expr.opn op l r => do
    let a ← resolveE tbl l
    let b ← resolveE tbl r
    match promote op a.1 b.1 with
    | some t => Except.ok (t, if opNullSafe op then false else (a.2 || b.2))
    | none => Except.error EvalError.TypeMismatch
  | Expr.invalid => Except.error EvalError.InvalidExpression

/-- Modelled from the spec: per-row evaluation of a denoted expression —
a column reference reads value and validity bit at the row, a literal
yields its constant and fixed validity, an operation eagerly computes the
operator's scalar function and combines validity as the AND of operand
validities unless the operator is null-safe. -/
def evalE (tbl : Table) : Expr → Nat → Int × Bool
  | Expr.colRef j, row => (colValue tbl j row, colValid tbl j row)
  | Expr.lit v _ n, _ => (v, !n)
  | Expr.opn op l r, row =>
    let a := evalE tbl l row
    let b := evalE tbl r row
    (opApply op a b, if opNullSafe op then true else a.2 && b.2)
  | Expr.invalid, _ => (0, false)

/-- Modelled from the spec: per-row evaluation directly over the node
store, following operand references (the runtime evaluator steps through
resolved slots; here the reference structure is followed directly, which
computes the same per-row results). -/
def evalNode (tbl : Table) (store : List Node) : Nat → Nat → Int × Bool
  | i, row =>
    match store.get? i with
    | some (Node.columnReference j) => (colValue tbl j row, colValid tbl j row)
    | some (Node.literal v _ n) => (v, !n)
    | some (Node.operation op l r) =>
      if h : l < i ∧ r < i then
        let a := evalNode tbl store l row
        let b := evalNode tbl store r row
        (opApply op a b, if opNullSafe op then true else a.2 && b.2)
      else (0, false)
    | none => (0, false)
termination_by i _ => i
decreasing_by
  · exact h.1
  · exact h.2

/-- Modelled from the spec: the sequential flatten/resolve phase —
unfolds the graph from the root (rejecting dangling or cyclic references
with `InvalidExpression`) and resolves types and nullability bottom-up. -/
def resolveNode (tbl : Table) (store : List Node) (root : Nat) :
    Except EvalError (DType × Bool) :=
  resolveE tbl (denote store root)

/-- Modelled from the spec: the output materializer — a fresh column of
the root's resolved type, one value and one validity bit per row. -/
def materializeColumn (tbl : Table) (store : List Node) (root : Nat)
    (t : DType) : Column :=
  ⟨t, (List.range tbl.numRows).map (fun r => (evalNode tbl store root r).1),
      (List.range tbl.numRows).map (fun r => (evalNode tbl store root r).2)⟩

/-- Modelled from the spec: `compute_column(table, root)` — the sole entry
point.  The sequential flatten/resolve phase runs first; on any error the
call fails with that error and produces no output; otherwise the per-row
evaluation phase fills the output column. -/
def compute_column (tbl : Table) (store : List Node) (root : Nat) :
    Except EvalError Column :=
  match resolveNode tbl store root with
  | Except.error e => Except.error e
  | Except.ok (t, _) => Except.ok (materializeColumn tbl store root t)

/-- Decidable test that an `Except` value is a success. -/
def exceptOk {ε α : Type} : Except ε α → Bool
  | Except.ok _ => true
  | Except.error _ => false

/-- The order-sensitive row-evaluation harness: write the evaluation
result of each row position listed in `order` into its own slot of the
output (slots start unwritten); each worker writes exclusively to its own
row position. -/
def setAt {α : Type} : List (Option α) → Nat → α → List (Option α)
  | [], _, _ => []
  | _ :: xs, 0, a => some a :: xs
  | x :: xs, n + 1, a => x :: setAt xs n a

/-- Modelled from the spec: evaluate the rows of the table in the order
given by `order`, each row-evaluation writing only to its own position of
the output buffer. -/
def evalRowsInOrder (tbl : Table) (store : List Node) (root : Nat)
    (order : List Nat) : List (Option (Int × Bool)) :=
  order.foldl (fun acc r => setAt acc r (evalNode tbl store root r))
    (List.replicate tbl.numRows (none : Option (Int × Bool)))

/-- An order is a complete schedule when it mentions exactly the row
indices below the row count (in any order, possibly with repeats). -/
def completeOrder (n : Nat) (order : List Nat) : Prop :=
  ∀ i, i ∈ order ↔ i < n

/-- Assemble an output column of type `t` from the row results. -/
def assembled (t : DType) (rs : List (Option (Int × Bool))) : Column :=
  ⟨t, rs.map (fun x => (x.getD (0, false)).1),
      rs.map (fun x => (x.getD (0, false)).2)⟩

/-- Candidate integer element types for the benchmark's key column. -/
def isIntegerType : DType → Bool
  | DType.INT8 => true
  | DType.INT32 => true
  | DType.INT64 => true
  | _ => false

/-- The benchmark's reused-column table: one integer column of `n` rows,
every value 1, no nulls (`create_sequence_table` with a single column,
null probability disabled, specialised to the all-ones data of the
reused-column chain property). -/
def onesTable (n : Nat) (t : DType) : Table :=
  ⟨n, [⟨t, List.replicate n 1, List.replicate n true⟩]⟩

/-- The benchmark's reused-column expression chain: node 0 is
`column_reference(0)`; node 1 is `operation(ADD, node 0, node 0)`
(`col + col`); node `k+1` for `k ≥ 1` is
`operation(ADD, node k, node 0)` — `d` additions in total, exactly the
`expressions` list built by `BM_ast_transform` with `reuse_columns`. -/
def chainStore (d : Nat) : List Node :=
  Node.columnReference 0 ::
    (List.range d).map (fun k => Node.operation ASTOperator.ADD k 0)

/-- A concrete sliced lists column for witnesses: 2 visible lists at slice
offset 1; child 0 holds the boundary offsets of the unsliced column, child
1 the elements. -/
def sampleListsCol : column_view :=
  column_view.mk 2 1 []
    [column_view.mk 4 0 [0, 1, 3, 6] [],
     column_view.mk 6 0 [10, 11, 12, 13, 14, 15] []]

/-- A concrete two-row table with one int32 column (second row null), for
witnesses. -/
def sampleTable : Table :=
  ⟨2, [⟨DType.INT32, [5, 7], [true, false]⟩]⟩

/-! ## Helper lemmas -/

theorem denote_unfold (store : List Node) (i : Nat) :
    denote store i =
      match store.get? i with
      | some (Node.columnReference j) => Expr.colRef j
      | some (Node.literal v t n) => Expr.lit v t n
      | some (Node.operation op l r) =>
        if h : l < i ∧ r < i then Expr.opn op (denote store l) (denote store r)
        else Expr.invalid
      | none => Expr.invalid := by
  rw [denote]

theorem evalNode_unfold (tbl : Table) (store : List Node) (i row : Nat) :
    evalNode tbl store i row =
      match store.get? i with
      | some (Node.columnReference j) => (colValue tbl j row, colValid tbl j row)
      | some (Node.literal v _ n) => (v, !n)
      | some (Node.operation op l r) =>
        if h : l < i ∧ r < i then
          let a := evalNode tbl store l row
          let b := evalNode tbl store r row
          (opApply op a b, if opNullSafe op then true else a.2 && b.2)
        else (0, false)
      | none => (0, false) := by
  rw [evalNode]

/-- Evaluation over the store agrees with evaluation of the denoted
expression tree. -/
theorem evalNode_eq_evalE (tbl : Table) (store : List Node) :
    ∀ i row, evalNode tbl store i row = evalE tbl (denote store i) row := by
  intro i
  induction i using Nat.strong_induction_on with
  | _ i ih =>
    intro row
    rw [evalNode_unfold, denote_unfold]
    cases hg : store.get? i with
    | none => simp [evalE]
    | some n =>
      cases n with
      | columnReference j => simp [evalE]
      | literal v t b => simp [evalE]
      | operation op l r =>
        by_cases h : l < i ∧ r < i
        · simp [h, evalE, ih l h.1, ih r h.2]
        · simp [h, evalE]

/-- Appending any nodes to the store leaves the denotation of every
existing node unchanged. -/
theorem denote_append (store ext : List Node) :
    ∀ i, i < store.length → denote (store ++ ext) i = denote store i := by
  intro i
  induction i using Nat.strong_induction_on with
  | _ i ih =>
    intro hi
    rw [denote_unfold, denote_unfold store]
    rw [List.get?_eq_getElem?, List.get?_eq_getElem?, List.getElem?_append_left hi]
    cases hg : store[i]? with
    | none => rfl
    | some m =>
      cases m with
      | columnReference j => rfl
      | literal v t b => rfl
      | operation op l r =>
        by_cases h : l < i ∧ r < i
        · simp [h, ih l h.1 (Nat.lt_trans h.1 hi), ih r h.2 (Nat.lt_trans h.2 hi)]
        · simp [h]

/-- `compute_column` is a function of the root's denotation (and the
table): denotation-equal roots produce identical results. -/
theorem compute_column_congr (tbl : Table) (store store' : List Node)
    (root root' : Nat) (h : denote store root = denote store' root') :
    compute_column tbl store root = compute_column tbl store' root' := by
  have he : ∀ row, evalNode tbl store root row = evalNode tbl store' root' row := by
    intro row
    rw [evalNode_eq_evalE, evalNode_eq_evalE, h]
  unfold compute_column resolveNode materializeColumn
  rw [h]
  cases resolveE tbl (denote store' root') with
  | error e => rfl
  | ok p => simp [he]

/-! ## Claim theorems -/

/-- C1: for aggregate operations of kind mean, variance or standard
deviation, the resolved output type is FLOAT64 regardless of the input
column's element type; for the other kinds exercised by the same selection
(sum, product, min) the output type equals the input column's type. -/
theorem aggregate_output_type_spec (input : DType) :
    output_dtype AggregationKind.MEAN input = DType.FLOAT64 ∧
    output_dtype AggregationKind.VARIANCE input = DType.FLOAT64 ∧
    output_dtype AggregationKind.STD input = DType.FLOAT64 ∧
    output_dtype AggregationKind.SUM input = input ∧
    output_dtype AggregationKind.PRODUCT input = input ∧
    output_dtype AggregationKind.MIN input = input := by
  refine ⟨?_, ?_, ?_, ?_, ?_, ?_⟩ <;> simp [output_dtype]

/-- C9: on a non-empty lists column view whose offsets child is large
enough to hold the view's boundary offsets, `offsets_end` is
`offsets_begin + size + 1`, `offsets_begin` is the start of the offsets
child shifted by the view's slice offset, and the spanned offsets range
holds exactly `size + 1` boundary offsets of the sliced view. -/
theorem offsets_range_covers_sliced_view (c : column_view)
    (hne : 0 < c.size)
    (hwf : lists_column_view.offsets_end c ≤
      (c.child lists_column_view.offsets_column_index).data.length) :
    lists_column_view.offsets_end c =
      lists_column_view.offsets_begin c + c.size + 1 ∧
    lists_column_view.offsets_begin c = c.offset ∧
    (lists_column_view.offsetsRange c).length = c.size + 1 := by
  refine ⟨rfl, rfl, ?_⟩
  unfold lists_column_view.offsetsRange
  unfold lists_column_view.offsets_end lists_column_view.offsets_begin at *
  simp only [List.length_take, List.length_drop]
  omega

/-- Witness for C9 at a concrete sliced lists column. -/
theorem offsets_range_covers_sliced_view_witness :
    lists_column_view.offsets_end sampleListsCol =
      lists_column_view.offsets_begin sampleListsCol + sampleListsCol.size + 1 ∧
    lists_column_view.offsets_begin sampleListsCol = sampleListsCol.offset ∧
    (lists_column_view.offsetsRange sampleListsCol).length =
      sampleListsCol.size + 1 :=
  offsets_range_covers_sliced_view sampleListsCol (by decide) (by decide)

/-- C10: `offsets()`, `child()` and `get_sliced_child()` fail with a logic
error exactly when the lists column is empty; on a non-empty column,
`offsets()` returns the child at index 0 and `child()` the child at
index 1, without error. -/
theorem lists_accessors_error_iff_empty (c : column_view) :
    (exceptOk (lists_column_view.offsets c) = false ↔ c.size = 0) ∧
    (exceptOk (lists_column_view.child c) = false ↔ c.size = 0) ∧
    (exceptOk (lists_column_view.get_sliced_child c) = false ↔ c.size = 0) ∧
    (0 < c.size →
      lists_column_view.offsets c =
        Except.ok (c.child lists_column_view.offsets_column_index) ∧
      lists_column_view.child c =
        Except.ok (c.child lists_column_view.child_column_index)) := by
  by_cases h : c.size = 0 <;>
    simp [lists_column_view.offsets, lists_column_view.child,
      lists_column_view.get_sliced_child, exceptOk, h]

/-- Witness for C10 at a concrete non-empty lists column. -/
theorem lists_accessors_error_iff_empty_witness :
    lists_column_view.offsets sampleListsCol =
      Except.ok (sampleListsCol.child lists_column_view.offsets_column_index) ∧
    lists_column_view.child sampleListsCol =
      Except.ok (sampleListsCol.child lists_column_view.child_column_index) :=
  (lists_accessors_error_iff_empty sampleListsCol).2.2.2 (by decide)

theorem except_bind_ok {ε α β : Type} (a : α) (f : α → Except ε β) :
    (Except.ok a : Except ε α) >>= f = f a := rfl

theorem except_bind_error {ε α β : Type} (e : ε) (f : α → Except ε β) :
    (Except.error e : Except ε α) >>= f = Except.error e := rfl

theorem getD_replicate_lt {α : Type} (n i : Nat) (a d : α) (h : i < n) :
    (List.replicate n a).getD i d = a := by
  rw [List.getD_eq_getElem?_getD, List.getElem?_replicate, if_pos h]
  rfl

theorem any_not_replicate_true (n : Nat) :
    (List.replicate n true).any (fun b => !b) = false := by
  induction n with
  | zero => rfl
  | succ k ih => simp [List.replicate_succ, ih]

theorem supported_of_integer (t : DType) (h : isIntegerType t = true) :
    supported t = true := by
  cases t <;> simp_all [isIntegerType, supported]

theorem promote_add_self (t : DType) (h : isIntegerType t = true) :
    promote ASTOperator.ADD t t = some t := by
  cases t <;> simp_all [isIntegerType, promote, rank]

theorem chain_get_succ (d k : Nat) (h : k < d) :
    (chainStore d).get? (k + 1) = some (Node.operation ASTOperator.ADD k 0) := by
  simp [chainStore, List.get?_eq_getElem?, List.getElem?_map,
    List.getElem?_range, h]

/-- Every node of the reused-column chain evaluates, at any in-range row
of the all-ones table, to its own index plus one, with a valid result. -/
theorem chain_eval (n d : Nat) (t : DType) (row : Nat) (hrow : row < n) :
    ∀ i, i ≤ d →
      evalNode (onesTable n t) (chainStore d) i row = ((i : Int) + 1, true) := by
  intro i
  induction i using Nat.strong_induction_on with
  | _ i ih =>
    intro hid
    match i with
    | 0 =>
      rw [evalNode_unfold]
      have h0 : (chainStore d).get? 0 = some (Node.columnReference 0) := rfl
      rw [h0]
      have hcv : colValue (onesTable n t) 0 row = 1 := by
        unfold colValue onesTable
        exact getD_replicate_lt n row (1 : Int) 0 hrow
      have hcb : colValid (onesTable n t) 0 row = true := by
        unfold colValid onesTable
        exact getD_replicate_lt n row true true hrow
      simp [hcv, hcb]
    | Nat.succ k =>
      rw [evalNode_unfold, chain_get_succ d k (by omega)]
      have hk : evalNode (onesTable n t) (chainStore d) k row =
          ((k : Int) + 1, true) := ih k (by omega) (by omega)
      have h0 : evalNode (onesTable n t) (chainStore d) 0 row =
          ((0 : Int) + 1, true) := ih 0 (by omega) (by omega)
      simp [hk, h0, opApply, opNullSafe]

/-- Every node of the reused-column chain resolves to the column's own
integer type, non-nullable. -/
theorem chain_resolve (n d : Nat) (t : DType) (ht : isIntegerType t = true) :
    ∀ i, i ≤ d →
      resolveNode (onesTable n t) (chainStore d) i = Except.ok (t, false) := by
  intro i
  induction i using Nat.strong_induction_on with
  | _ i ih =>
    intro hid
    match i with
    | 0 =>
      unfold resolveNode
      rw [denote_unfold]
      have h0 : (chainStore d).get? 0 = some (Node.columnReference 0) := rfl
      rw [h0]
      simp [resolveE, onesTable, supported_of_integer t ht, hasNulls,
        any_not_replicate_true]
    | Nat.succ k =>
      unfold resolveNode
      rw [denote_unfold, chain_get_succ d k (by omega)]
      have hk := ih k (by omega) (by omega)
      have h0 := ih 0 (by omega) (by omega)
      unfold resolveNode at hk h0
      simp [resolveE, hk, h0, except_bind_ok, promote_add_self t ht,
        opNullSafe, (by omega : k < k + 1 ∧ 0 < k + 1)]

theorem map_getD_range {α : Type} (l : List α) (d : α) :
    (List.range l.length).map (fun i => l.getD i d) = l := by
  apply List.ext_getElem
  · simp
  · intro i h1 h2
    simp only [List.getElem_map, List.getElem_range]
    exact List.getD_eq_getElem l d h2

/-- C2: for a table of N rows whose single integer column holds 1 in
every row with no nulls, and the expression chain ADD(col, col) extended
by d-1 further ADDs of the same column, compute_column returns a column
whose N values all equal d+1 with every row valid. -/
theorem reused_column_chain (n d : Nat) (t : DType) (hd : 1 ≤ d)
    (ht : isIntegerType t = true) :
    compute_column (onesTable n t) (chainStore d) d =
      Except.ok ⟨t, List.replicate n ((d : Int) + 1), List.replicate n true⟩ := by
  unfold compute_column
  rw [chain_resolve n d t ht d (le_refl d)]
  unfold materializeColumn
  have hrows : (onesTable n t).numRows = n := rfl
  rw [hrows]
  have hv : (List.range n).map
      (fun r => (evalNode (onesTable n t) (chainStore d) d r).1) =
      List.replicate n ((d : Int) + 1) := by
    apply List.ext_getElem
    · simp
    · intro i h1 h2
      simp only [List.getElem_map, List.getElem_range, List.getElem_replicate]
      rw [chain_eval n d t i (by simpa using h1) d (le_refl d)]
  have hb : (List.range n).map
      (fun r => (evalNode (onesTable n t) (chainStore d) d r).2) =
      List.replicate n true := by
    apply List.ext_getElem
    · simp
    · intro i h1 h2
      simp only [List.getElem_map, List.getElem_range, List.getElem_replicate]
      rw [chain_eval n d t i (by simpa using h1) d (le_refl d)]
  rw [hv, hb]

/-- Witness for C2: three rows, a two-level ADD chain over an int32 ones
column evaluates to 3 everywhere, all rows valid. -/
theorem reused_column_chain_witness :
    compute_column (onesTable 3 DType.INT32) (chainStore 2) 2 =
      Except.ok ⟨DType.INT32, List.replicate 3 ((2 : Int) + 1),
        List.replicate 3 true⟩ :=
  reused_column_chain 3 2 DType.INT32 (by decide) (by decide)

/-- C3: sharing equivalence — an operation node whose two operand
references point at one shared node evaluates identically to the same
operation built over two independently constructed, denotation-identical
nodes; shared (DAG) and duplicated (tree) constructions are observably
equivalent under compute_column. -/
theorem sharing_equivalence (op : ASTOperator) (tbl : Table)
    (store : List Node) (i j : Nat) (hi : i < store.length)
    (hj : j < store.length) (h : denote store i = denote store j) :
    compute_column tbl (store ++ [Node.operation op i i]) store.length =
      compute_column tbl (store ++ [Node.operation op i j]) store.length := by
  apply compute_column_congr
  rw [denote_unfold, denote_unfold]
  have g1 : (store ++ [Node.operation op i i]).get? store.length =
      some (Node.operation op i i) := by
    rw [List.get?_eq_getElem?]
    exact List.getElem?_concat_length store (Node.operation op i i)
  have g2 : (store ++ [Node.operation op i j]).get? store.length =
      some (Node.operation op i j) := by
    rw [List.get?_eq_getElem?]
    exact List.getElem?_concat_length store (Node.operation op i j)
  rw [g1, g2]
  simp [hi, hj, denote_append store [Node.operation op i i] i hi,
    denote_append store [Node.operation op i j] i hi,
    denote_append store [Node.operation op i j] j hj, h]

/-- Witness for C3: ADD over one column-reference node referenced twice
versus two separately built identical column-reference nodes, on a
concrete two-row table. -/
theorem sharing_equivalence_witness :
    compute_column sampleTable
        ([Node.columnReference 0, Node.columnReference 0] ++
          [Node.operation ASTOperator.ADD 0 0]) 2 =
      compute_column sampleTable
        ([Node.columnReference 0, Node.columnReference 0] ++
          [Node.operation ASTOperator.ADD 0 1]) 2 :=
  sharing_equivalence ASTOperator.ADD sampleTable
    [Node.columnReference 0, Node.columnReference 0] 0 1 (by decide) (by decide)
    (by rw [denote_unfold, denote_unfold]; rfl)

/-- C4: the node store is append-only — inserting any later nodes leaves
every existing node reference intact: the stored node, its denotation and
evaluation of `compute_column` through that reference are all unchanged.
-/
theorem append_only_node_store (store ext : List Node) (i : Nat)
    (hi : i < store.length) :
    (store ++ ext).get? i = store.get? i ∧
    denote (store ++ ext) i = denote store i ∧
    ∀ tbl, compute_column tbl (store ++ ext) i = compute_column tbl store i := by
  have hg : (store ++ ext).get? i = store.get? i := by
    rw [List.get?_eq_getElem?, List.get?_eq_getElem?]
    exact List.getElem?_append_left hi
  have hd := denote_append store ext i hi
  exact ⟨hg, hd, fun tbl => compute_column_congr tbl _ store i i hd⟩

/-- Witness for C4: appending an operation node to a two-node store leaves
node 0's entry, denotation and evaluation unchanged. -/
theorem append_only_node_store_witness :
    ([Node.columnReference 0, Node.columnReference 0] ++
        [Node.operation ASTOperator.ADD 0 1]).get? 0 =
      [Node.columnReference 0, Node.columnReference 0].get? 0 ∧
    denote ([Node.columnReference 0, Node.columnReference 0] ++
        [Node.operation ASTOperator.ADD 0 1]) 0 =
      denote [Node.columnReference 0, Node.columnReference 0] 0 ∧
    ∀ tbl, compute_column tbl
        ([Node.columnReference 0, Node.columnReference 0] ++
          [Node.operation ASTOperator.ADD 0 1]) 0 =
      compute_column tbl [Node.columnReference 0, Node.columnReference 0] 0 :=
  append_only_node_store [Node.columnReference 0, Node.columnReference 0]
    [Node.operation ASTOperator.ADD 0 1] 0 (by decide)

/-- C5: for a non-null-safe operator, the validity bit of the result at
each row is the logical AND of the validity bits of its operands at that
row — both at the evaluator level and in the materialized output column.
-/
theorem null_combination (tbl : Table) (store : List Node) (root : Nat)
    (op : ASTOperator) (l r : Nat)
    (hg : store.get? root = some (Node.operation op l r))
    (hl : l < root) (hr : r < root) (hns : opNullSafe op = false) :
    (∀ row, (evalNode tbl store root row).2 =
      ((evalNode tbl store l row).2 && (evalNode tbl store r row).2)) ∧
    (∀ t row, row < tbl.numRows →
      (materializeColumn tbl store root t).valid.get? row =
        some ((evalNode tbl store l row).2 && (evalNode tbl store r row).2)) := by
  have hrow : ∀ row, (evalNode tbl store root row).2 =
      ((evalNode tbl store l row).2 && (evalNode tbl store r row).2) := by
    intro row
    rw [evalNode_unfold, hg]
    simp [hl, hr, hns]
  refine ⟨hrow, ?_⟩
  intro t row hlt
  unfold materializeColumn
  simp [List.get?_eq_getElem?, List.getElem?_map, List.getElem?_range, hlt,
    hrow]

/-- Witness for C5: the output validity of ADD over a valid and a null row
position is the AND of the operand validities, on a concrete store. -/
theorem null_combination_witness :
    (evalNode sampleTable
        [Node.columnReference 0, Node.columnReference 0,
          Node.operation ASTOperator.ADD 0 1] 2 0).2 =
      ((evalNode sampleTable
          [Node.columnReference 0, Node.columnReference 0,
            Node.operation ASTOperator.ADD 0 1] 0 0).2 &&
        (evalNode sampleTable
          [Node.columnReference 0, Node.columnReference 0,
            Node.operation ASTOperator.ADD 0 1] 1 0).2) :=
  (null_combination sampleTable
      [Node.columnReference 0, Node.columnReference 0,
        Node.operation ASTOperator.ADD 0 1] 2 ASTOperator.ADD 0 1 rfl
      (by decide) (by decide) (by decide)).1 0

/-- C6: a root that is exactly ColumnReference(j), for a well-formed table
and a valid, supported column index j, computes a column equal in values
and validity (and type) to input column j. -/
theorem colref_identity (tbl : Table) (j : Nat) (c : Column)
    (hw : wfTable tbl) (hj : tbl.cols.get? j = some c)
    (hs : supported c.dtype = true) :
    compute_column tbl [Node.columnReference j] 0 = Except.ok c := by
  have hmem : c ∈ tbl.cols := List.get?_mem hj
  obtain ⟨hvl, hbl⟩ := hw c hmem
  have hgetD : tbl.cols.getD j defaultColumn = c := by
    rw [List.getD_eq_getElem?_getD, ← List.get?_eq_getElem?, hj]
    rfl
  have hd : denote [Node.columnReference j] 0 = Expr.colRef j := by
    rw [denote_unfold]
    rfl
  have hev : ∀ r, evalNode tbl [Node.columnReference j] 0 r =
      (c.values.getD r 0, c.valid.getD r true) := by
    intro r
    have hgget : [Node.columnReference j].get? 0 =
        some (Node.columnReference j) := rfl
    rw [evalNode_unfold, hgget]
    show (colValue tbl j r, colValid tbl j r) = _
    unfold colValue colValid
    rw [hgetD]
  unfold compute_column resolveNode
  rw [hd]
  have hj2 : tbl.cols[j]? = some c := by
    rw [← List.get?_eq_getElem?]
    exact hj
  have hres : resolveE tbl (Expr.colRef j) =
      Except.ok (c.dtype, hasNulls c) := by
    simp [resolveE, hj2, hs]
  rw [hres]
  show Except.ok (materializeColumn tbl [Node.columnReference j] 0 c.dtype) =
    Except.ok c
  unfold materializeColumn
  have hv : (List.range tbl.numRows).map
      (fun r => (evalNode tbl [Node.columnReference j] 0 r).1) = c.values := by
    simp only [hev]
    rw [← hvl]
    exact map_getD_range c.values 0
  have hb : (List.range tbl.numRows).map
      (fun r => (evalNode tbl [Node.columnReference j] 0 r).2) = c.valid := by
    simp only [hev]
    rw [← hbl]
    exact map_getD_range c.valid true
  rw [hv, hb]

/-- Witness for C6: the identity expression over the sample table's
column 0 reproduces that column exactly. -/
theorem colref_identity_witness :
    compute_column sampleTable [Node.columnReference 0] 0 =
      Except.ok ⟨DType.INT32, [5, 7], [true, false]⟩ :=
  colref_identity sampleTable 0 ⟨DType.INT32, [5, 7], [true, false]⟩
    (by unfold wfTable; decide) rfl (by decide)

/-- C7: fail-fast atomicity — compute_column fails with an error exactly
when the sequential flatten/resolve phase fails with that error (so every
error kind is detected before row evaluation), and on resolver success it
returns the fully materialized output column (no partial output is ever
observable). -/
theorem fail_fast_atomic (tbl : Table) (store : List Node) (root : Nat) :
    (∀ e, compute_column tbl store root = Except.error e ↔
      resolveNode tbl store root = Except.error e) ∧
    (∀ t nb, resolveNode tbl store root = Except.ok (t, nb) →
      compute_column tbl store root =
        Except.ok (materializeColumn tbl store root t)) := by
  constructor
  · intro e
    unfold compute_column
    cases hres : resolveNode tbl store root with
    | error e2 => simp
    | ok p =>
      cases p
      simp
  · intro t nb hres
    unfold compute_column
    rw [hres]

/-- Witness for C7: a dangling root reference is rejected by the resolve
phase with InvalidExpression, matching the compute_column failure. -/
theorem fail_fast_atomic_witness :
    resolveNode sampleTable ([] : List Node) 0 =
      Except.error EvalError.InvalidExpression :=
  ((fail_fast_atomic sampleTable ([] : List Node) 0).1
      EvalError.InvalidExpression).mp
    (by unfold compute_column resolveNode; rw [denote_unfold]; rfl)

theorem setAt_length {α : Type} :
    ∀ (l : List (Option α)) (n : Nat) (a : α), (setAt l n a).length = l.length
  | [], _, _ => rfl
  | _ :: _, 0, _ => rfl
  | x :: xs, n + 1, a => by simp [setAt, setAt_length xs n a]

theorem setAt_ge {α : Type} :
    ∀ (l : List (Option α)) (n : Nat) (a : α), l.length ≤ n → setAt l n a = l
  | [], _, _, _ => rfl
  | _ :: _, 0, _, h => by simp at h
  | x :: xs, n + 1, a, h => by
    simp only [setAt]
    rw [setAt_ge xs n a (by simpa using h)]

theorem setAt_get_self {α : Type} :
    ∀ (l : List (Option α)) (n : Nat) (a : α), n < l.length →
      (setAt l n a)[n]? = some (some a)
  | _ :: _, 0, _, _ => by simp [setAt]
  | x :: xs, n + 1, a, h => by
    simp only [setAt, List.getElem?_cons_succ]
    exact setAt_get_self xs n a (by simpa using h)
  | [], _, _, h => by simp at h

theorem setAt_get_other {α : Type} :
    ∀ (l : List (Option α)) (n m : Nat) (a : α), m ≠ n →
      (setAt l n a)[m]? = l[m]?
  | [], _, _, _, _ => rfl
  | _ :: _, 0, 0, _, h => absurd rfl h
  | _ :: _, 0, m + 1, _, _ => by simp [setAt]
  | _ :: _, n + 1, 0, _, _ => by simp [setAt]
  | x :: xs, n + 1, m + 1, a, h => by
    simp only [setAt, List.getElem?_cons_succ]
    exact setAt_get_other xs n m a (fun hh => h (by omega))

/-- Each position of the written output holds the row's own result once
that row appears in the schedule, independently of schedule order. -/
theorem foldl_setAt_get {α : Type} (f : Nat → α) :
    ∀ (order : List Nat) (acc : List (Option α)) (j : Nat),
      (order.foldl (fun a r => setAt a r (f r)) acc)[j]? =
        if j ∈ order ∧ j < acc.length then some (some (f j)) else acc[j]? := by
  intro order
  induction order with
  | nil => intro acc j; simp
  | cons r rest ih =>
    intro acc j
    rw [List.foldl_cons, ih (setAt acc r (f r)) j, setAt_length]
    by_cases hmem : j ∈ rest ∧ j < acc.length
    · simp [hmem, hmem.1, hmem.2, List.mem_cons]
    · rw [if_neg hmem]
      by_cases hjr : j = r
      · subst hjr
        by_cases hlen : j < acc.length
        · rw [setAt_get_self acc j (f j) hlen]
          simp [hlen]
        · rw [setAt_ge acc j (f j) (by omega)]
          rw [if_neg (fun hc => hlen hc.2)]
      · rw [setAt_get_other acc r j (f r) hjr]
        have : (j ∈ r :: rest ∧ j < acc.length) ↔ (j ∈ rest ∧ j < acc.length) := by
          simp [List.mem_cons, hjr]
        rw [if_neg (fun hc => hmem (this.mp hc))]

/-- Any complete schedule produces the canonical per-row result list. -/
theorem evalRowsInOrder_complete (tbl : Table) (store : List Node)
    (root : Nat) (order : List Nat)
    (h : completeOrder tbl.numRows order) :
    evalRowsInOrder tbl store root order =
      (List.range tbl.numRows).map
        (fun r => some (evalNode tbl store root r)) := by
  apply List.ext_getElem?
  intro j
  unfold evalRowsInOrder
  rw [foldl_setAt_get (fun r => evalNode tbl store root r) order
    (List.replicate tbl.numRows none) j]
  by_cases hj : j < tbl.numRows
  · rw [if_pos ⟨(h j).mpr hj, by simpa using hj⟩]
    simp [List.getElem?_map, List.getElem?_range, hj]
  · rw [if_neg (fun hc => hj (by simpa using hc.2))]
    rw [List.getElem?_replicate]
    have hnone : (List.range tbl.numRows)[j]? = none :=
      List.getElem?_eq_none (by simpa using hj)
    simp [List.getElem?_map, hnone, hj]

/-- C8: determinism — for a fixed (table, expression) pair, the output of
the row-evaluation phase is identical for any two complete row schedules,
and compute_column's successful output is exactly the column assembled
from that (order-independent) row-result list. -/
theorem row_order_determinism (tbl : Table) (store : List Node) (root : Nat)
    (o1 o2 : List Nat) (h1 : completeOrder tbl.numRows o1)
    (h2 : completeOrder tbl.numRows o2) :
    evalRowsInOrder tbl store root o1 = evalRowsInOrder tbl store root o2 ∧
    (∀ t nb, resolveNode tbl store root = Except.ok (t, nb) →
      compute_column tbl store root =
        Except.ok (assembled t (evalRowsInOrder tbl store root o1))) := by
  have e1 := evalRowsInOrder_complete tbl store root o1 h1
  have e2 := evalRowsInOrder_complete tbl store root o2 h2
  constructor
  · rw [e1, e2]
  · intro t nb hres
    unfold compute_column
    rw [hres]
    show Except.ok (materializeColumn tbl store root t) = _
    rw [e1]
    unfold materializeColumn assembled
    simp [List.map_map, Function.comp]

/-- Witness for C8: two opposite schedules of the sample table's two rows
produce the same row-result list. -/
theorem row_order_determinism_witness :
    evalRowsInOrder sampleTable [Node.columnReference 0] 0 [1, 0] =
      evalRowsInOrder sampleTable [Node.columnReference 0] 0 [0, 1] :=
  (row_order_determinism sampleTable [Node.columnReference 0] 0 [1, 0] [0, 1]
      (by unfold completeOrder; intro i; simp [sampleTable]; omega)
      (by unfold completeOrder; intro i; simp [sampleTable]; omega)).1
